import Mathlib

/-!
Verification of the content ingestion and metadata normalization pipeline of
a static MDX blog (`src/app/posts/utils.ts` and `src/components/CodeBlock.tsx`).

The embedding models the JavaScript value universe that the YAML frontmatter
parser (gray-matter / js-yaml) can deliver to the normalizer, and translates
each function of `utils.ts` field by field.  Conventions:

* JavaScript numbers are modelled as integers (`Int`); none of the verified
  properties depend on non-integral or NaN numerics.
* `Date` objects are modelled by their epoch-millisecond timestamp.  The YAML
  timestamp constructor only ever produces valid `Date` objects, so invalid
  dates (`NaN` time value) are outside the modelled universe.
* `new Date(string)` parsing is modelled on the ISO subset that the
  specification relies on: date-only `YYYY-MM-DD` strings and full
  `YYYY-MM-DDTHH:MM:SS.mmmZ` timestamps.  All strings produced by
  `toISOString` fall inside this subset; strings outside it are unparseable
  (as, for example, `"not-a-date"` and `""` are for the real engine).
* `String(date)` is rendered as the ISO string; the verified properties only
  depend on this coercion being a deterministic non-empty non-category string.
* String lowercasing and trimming are modelled on ASCII, which covers every
  string the enumeration membership test can accept.
-/

namespace Blog

mutual
/-- A raw metadata value as produced by the frontmatter YAML engine:
`undefined` (absent field), `null`, booleans, (integral) numbers, strings,
valid `Date` objects (epoch milliseconds) and arrays.  Arrays carry their
elements as a `JSList` (an inlined list, mutual with `JSValue`). -/
inductive JSValue where
  | undefined
  | null
  | boolean (b : Bool)
  | number (n : Int)
  | str (s : String)
  | date (millis : Int)
  | array (elems : JSList)

/-- A list of raw metadata values (the elements of a JavaScript array). -/
inductive JSList where
  | nil
  | cons (hd : JSValue) (tl : JSList)
end

/-- The elements of a `JSList` as an ordinary Lean list. -/
def JSList.toList : JSList → List JSValue
  | .nil => []
  | .cons x xs => x :: xs.toList

/-- JavaScript nullish test (`value ?? fallback` triggers on these). -/
def jsNullish : JSValue → Bool
  | .undefined => true
  | .null => true
  | _ => false

/-- JavaScript falsiness (`!value` is `true` exactly on these). -/
def jsFalsy : JSValue → Bool
  | .undefined => true
  | .null => true
  | .boolean b => !b
  | .number n => n == 0
  | .str s => s == ""
  | _ => false

/-- The nullish-coalescing operator `a ?? b`. -/
def jsCoalesce (a b : JSValue) : JSValue := if jsNullish a then b else a

/-- Left-pad the decimal rendering of `n` with zeros to `width` digits. -/
def padZeros (width n : Nat) : String :=
  let s := toString n
  String.mk (List.replicate (width - s.length) '0') ++ s

/-- Proleptic-Gregorian civil date from days since the Unix epoch
(the classical era-based conversion, exact for all day counts). -/
def civilFromDays (days : Int) : Int × Nat × Nat :=
  let z := days + 719468
  let era := z.fdiv 146097
  let doe := (z - era * 146097).toNat
  let yoe := (doe - doe / 1460 + doe / 36524 - doe / 146096) / 365
  let y : Int := (yoe : Int) + era * 400
  let doy := doe - (365 * yoe + yoe / 4 - yoe / 100)
  let mp := (5 * doy + 2) / 153
  let d := doy - (153 * mp + 2) / 5 + 1
  let m := if mp < 10 then mp + 3 else mp - 9
  (if m ≤ 2 then y + 1 else y, m, d)

/-- Days since the Unix epoch of a civil date (inverse of `civilFromDays`). -/
def daysFromCivil (y : Int) (m d : Nat) : Int :=
  let y' := if m ≤ 2 then y - 1 else y
  let era := y'.fdiv 400
  let yoe := (y' - era * 400).toNat
  let mp := if m > 2 then m - 3 else m + 9
  let doy := (153 * mp + 2) / 5 + d - 1
  let doe := yoe * 365 + yoe / 4 - yoe / 100 + doy
  era * 146097 + (doe : Int) - 719468

/-- `Date.prototype.toISOString`: epoch milliseconds to
`YYYY-MM-DDTHH:MM:SS.mmmZ` (modelled for the years 1..9999 the pipeline
can encounter). -/
def isoOfMillis (t : Int) : String :=
  let days := t.fdiv 86400000
  let ms := (t - days * 86400000).toNat
  let c := civilFromDays days
  let hh := ms / 3600000
  let mi := ms % 3600000 / 60000
  let ss := ms % 60000 / 1000
  let mmm := ms % 1000
  padZeros 4 c.1.toNat ++ "-" ++ padZeros 2 c.2.1 ++ "-" ++ padZeros 2 c.2.2 ++
    "T" ++ padZeros 2 hh ++ ":" ++ padZeros 2 mi ++ ":" ++ padZeros 2 ss ++
    "." ++ padZeros 3 mmm ++ "Z"

/-- Whether `y` is a Gregorian leap year. -/
def isLeapYear (y : Int) : Bool := (y % 4 == 0 && y % 100 != 0) || y % 400 == 0

/-- Number of days in month `m` of year `y`. -/
def daysInMonth (y : Int) (m : Nat) : Nat :=
  if m == 2 then (if isLeapYear y then 29 else 28)
  else if m == 4 || m == 6 || m == 9 || m == 11 then 30
  else 31

/-- Numeric value of a decimal digit character. -/
def digitVal (c : Char) : Nat := c.toNat - 48

/-- Parse a date-only ISO string `YYYY-MM-DD` to epoch milliseconds
(UTC midnight), validating month and day ranges as the engine does. -/
def parseDateOnly (s : String) : Option Int :=
  match s.toList with
  | [y1, y2, y3, y4, '-', m1, m2, '-', d1, d2] =>
    if [y1, y2, y3, y4, m1, m2, d1, d2].all Char.isDigit then
      let y : Int := (((digitVal y1 * 10 + digitVal y2) * 10 + digitVal y3) * 10 + digitVal y4 : Nat)
      let m := digitVal m1 * 10 + digitVal m2
      let d := digitVal d1 * 10 + digitVal d2
      if 1 ≤ m && m ≤ 12 && 1 ≤ d && d ≤ daysInMonth y m then
        some (daysFromCivil y m d * 86400000)
      else none
    else none
  | _ => none

/-- Parse a full ISO timestamp `YYYY-MM-DDTHH:MM:SS.mmmZ` to epoch
milliseconds, validating field ranges. -/
def parseIsoDateTime (s : String) : Option Int :=
  match s.toList with
  | [y1, y2, y3, y4, '-', mo1, mo2, '-', d1, d2, 'T',
     h1, h2, ':', mi1, mi2, ':', s1, s2, '.', f1, f2, f3, 'Z'] =>
    if [y1, y2, y3, y4, mo1, mo2, d1, d2, h1, h2, mi1, mi2, s1, s2, f1, f2, f3].all Char.isDigit then
      let y : Int := (((digitVal y1 * 10 + digitVal y2) * 10 + digitVal y3) * 10 + digitVal y4 : Nat)
      let mo := digitVal mo1 * 10 + digitVal mo2
      let d := digitVal d1 * 10 + digitVal d2
      let hh := digitVal h1 * 10 + digitVal h2
      let mi := digitVal mi1 * 10 + digitVal mi2
      let ss := digitVal s1 * 10 + digitVal s2
      let f := (digitVal f1 * 10 + digitVal f2) * 10 + digitVal f3
      if 1 ≤ mo && mo ≤ 12 && 1 ≤ d && d ≤ daysInMonth y mo && hh ≤ 23 && mi ≤ 59 && ss ≤ 59 then
        some (daysFromCivil y mo d * 86400000 +
          ((hh * 3600000 + mi * 60000 + ss * 1000 + f : Nat) : Int))
      else none
    else none
  | _ => none

/-- `new Date(string)` parsing on the modelled ISO subset: the resulting
time value, or `none` for an invalid date (`NaN` time value). -/
def jsParseDate (s : String) : Option Int :=
  (parseDateOnly s).orElse fun _ => parseIsoDateTime s

/-- ASCII lowercasing of one character (the fragment of
`String.prototype.toLowerCase` the category test can distinguish). -/
def asciiToLower (c : Char) : Char :=
  if 'A' ≤ c && c ≤ 'Z' then Char.ofNat (c.toNat + 32) else c

/-- `String.prototype.toLowerCase` on the modelled ASCII range. -/
def jsToLower (s : String) : String := String.mk (s.data.map asciiToLower)

/-- The whitespace characters `String.prototype.trim` strips (ASCII
range). -/
def isJsWhitespace (c : Char) : Bool :=
  c == ' ' || c == '\t' || c == '\n' || c == '\r' || c == '\x0b' || c == '\x0c'

/-- `String.prototype.trim`: strip whitespace from both ends. -/
def jsTrim (s : String) : String :=
  String.mk (((s.data.dropWhile isJsWhitespace).reverse.dropWhile isJsWhitespace).reverse)

mutual
/-- JavaScript `String(value)` coercion over the modelled universe.
Arrays join their elements with commas, rendering nullish elements as
empty strings; `Date` objects are rendered by their ISO string (the real
engine renders a locale-dependent non-empty string — the verified
properties depend only on determinism and the rendered shape never being
an enumeration member). -/
def jsToString : JSValue → String
  | .undefined => "undefined"
  | .null => "null"
  | .boolean b => if b then "true" else "false"
  | .number n => toString n
  | .str s => s
  | .date t => isoOfMillis t
  | .array xs => String.intercalate "," (jsElemStrings xs)

/-- `Array.prototype.join`'s elementwise rendering: nullish elements
become empty strings, all others are coerced with `String(...)`. -/
def jsElemStrings : JSList → List String
  | .nil => []
  | .cons x xs => (if jsNullish x then "" else jsToString x) :: jsElemStrings xs
end

/-- The blog's category enumeration
(`utils.ts:16`, `type Category = "frontend" | "backend" | "infra" | "etc"`). -/
inductive Category where
  | frontend
  | backend
  | infra
  | etc
deriving Repr, DecidableEq

/-- The string spelled by each category literal. -/
def Category.toStr : Category → String
  | .frontend => "frontend"
  | .backend => "backend"
  | .infra => "infra"
  | .etc => "etc"

/-- `ALL_CATEGORIES` (`utils.ts:20`): every valid category, in declaration
order (which is also the display order). -/
def ALL_CATEGORIES : List Category := [.frontend, .backend, .infra, .etc]

/-- The TypeScript cast `asString as Category` performed after the
membership test succeeds: the category constructor spelled by `s`
(defaulting to `etc`, which the cast can only reach when `s` is a member). -/
def categoryOfString (s : String) : Category :=
  if s = "frontend" then .frontend
  else if s = "backend" then .backend
  else if s = "infra" then .infra
  else .etc

/-- `normalizeDateToISO` (`utils.ts:172-188`): falsy values fall back to the
Unix epoch, `Date` objects convert directly, anything else is coerced to a
string and parsed, returning the original string if parsing fails. -/
def normalizeDateToISO (value : JSValue) : String :=
  if jsFalsy value then isoOfMillis 0
  else match value with
    | .date t => isoOfMillis t
    | _ =>
      let asString := jsToString value
      match jsParseDate asString with
      | some t => isoOfMillis t
      | none => asString

/-- `normalizeCategory` (`utils.ts:192-202`): falsy values classify as
`etc`; otherwise coerce to string, lowercase and trim, and membership-test
against `ALL_CATEGORIES`, defaulting to `etc`. -/
def normalizeCategory (value : JSValue) : Category :=
  if jsFalsy value then .etc
  else
    let asString := jsTrim (jsToLower (jsToString value))
    if (ALL_CATEGORIES.map Category.toStr).contains asString then categoryOfString asString
    else .etc

/-- `isValidCategory` (`utils.ts:234-237`). -/
def isValidCategory (category : String) : Bool :=
  (ALL_CATEGORIES.map Category.toStr).contains category

/-- The untyped frontmatter mapping handed to the normalizer
(`utils.ts:67-72`): each recognized key's raw value, `undefined` when the key
is absent. -/
structure RawFM where
  title : JSValue := .undefined
  date : JSValue := .undefined
  createdAt : JSValue := .undefined
  updatedAt : JSValue := .undefined
  category : JSValue := .undefined
  description : JSValue := .undefined
  tags : JSValue := .undefined

/-- `PostFrontMatter` (`utils.ts:24-31`) after normalization. -/
structure PostFrontMatter where
  title : String
  createdAt : String
  updatedAt : String
  category : Category
  description : Option String
  tags : Option (List String)
deriving Repr, DecidableEq

/-- The inline normalization of `listPosts` (`utils.ts:75-88`): the title
falls back to the literal `"Untitled"`. -/
def listPostsNormalize (fm : RawFM) : PostFrontMatter where
  title := jsToString (jsCoalesce fm.title (.str "Untitled"))
  createdAt := normalizeDateToISO (jsCoalesce fm.createdAt fm.date)
  updatedAt := normalizeDateToISO (jsCoalesce fm.updatedAt (jsCoalesce fm.createdAt fm.date))
  category := normalizeCategory fm.category
  description := if jsFalsy fm.description then none else some (jsToString fm.description)
  tags := match fm.tags with
    | .array xs => some (xs.toList.map jsToString)
    | _ => none

/-- The inline normalization of `getPostBySlug` (`utils.ts:154-164`): the
title falls back to the document's slug. -/
def getPostNormalize (slug : String) (fm : RawFM) : PostFrontMatter where
  title := jsToString (jsCoalesce fm.title (.str slug))
  createdAt := normalizeDateToISO (jsCoalesce fm.createdAt fm.date)
  updatedAt := normalizeDateToISO (jsCoalesce fm.updatedAt (jsCoalesce fm.createdAt fm.date))
  category := normalizeCategory fm.category
  description := if jsFalsy fm.description then none else some (jsToString fm.description)
  tags := match fm.tags with
    | .array xs => some (xs.toList.map jsToString)
    | _ => none

/-- A content-directory document after scanning and frontmatter splitting
(`utils.ts:48-63`): the slug (filename with the `.mdx` extension removed),
the raw frontmatter mapping, and the body text. -/
structure RawDoc where
  slug : String
  fm : RawFM
  body : String

/-- `PostListItem` (`utils.ts:34-37`). -/
structure PostListItem where
  slug : String
  frontMatter : PostFrontMatter
deriving Repr, DecidableEq

/-- `new Date(p.frontMatter.createdAt).getTime()` for a list item: the
parsed time value, `none` standing for `NaN`. -/
def postTime (p : PostListItem) : Option Int := jsParseDate p.frontMatter.createdAt

/-- JavaScript `<` on two time values: `false` whenever either side is
`NaN` (`none`). -/
def jsLtOpt : Option Int → Option Int → Bool
  | some a, some b => a < b
  | _, _ => false

/-- The sort comparator of `listPosts` (`utils.ts:96`) returns `1` when
`a`'s time is strictly below `b`'s and `-1` otherwise; `sortLe a b` holds
exactly when the comparator lets `a` precede `b` (result `≤ 0`). -/
def sortLe (a b : PostListItem) : Bool := !jsLtOpt (postTime a) (postTime b)

/-- Stable insertion of `x` into `l` under comparator-order `le`. -/
def insertSorted (le : α → α → Bool) (x : α) : List α → List α
  | [] => [x]
  | y :: ys => if le x y then x :: y :: ys else y :: insertSorted le x ys

/-- `Array.prototype.sort` modelled as a stable insertion sort driven by
the comparator (the ECMAScript sort order is implementation-defined for a
comparator that never returns `0`, as this one; any comparator-respecting
stable sort is a faithful model). -/
def sortBy (le : α → α → Bool) : List α → List α
  | [] => []
  | x :: xs => insertSorted le x (sortBy le xs)

/-- `listPosts` (`utils.ts:45-99`) over an already-scanned content set:
normalize each document's frontmatter, pair it with its slug, and sort by
`createdAt` descending via the comparator. -/
def listPosts (cs : List RawDoc) : List PostListItem :=
  sortBy sortLe (cs.map fun d => { slug := d.slug, frontMatter := listPostsNormalize d.fm })

/-- `getPostSlugs` (`utils.ts:103-108`): slugs in scan order, no sort. -/
def getPostSlugs (cs : List RawDoc) : List String := cs.map RawDoc.slug

/-- The file-system failure surfaced by `getPostBySlug` when no document
matches the slug (`fs.readFile` rejecting with `ENOENT`). -/
inductive FsError where
  | enoent
deriving Repr, DecidableEq

/-- A rendered post (`utils.ts:167`): normalized frontmatter plus the
compiled body.  The MDX compiler is an external collaborator; its output is
modelled by the body text it was given. -/
structure RenderedPost where
  frontMatter : PostFrontMatter
  content : String
deriving Repr, DecidableEq

/-- `getPostBySlug` (`utils.ts:112-168`): read the single document named
by the slug (an absent file rejects with `ENOENT`, which the caller maps
to not-found), split, compile the body, and normalize the frontmatter with
the slug as title fallback. -/
def getPostBySlug (cs : List RawDoc) (slug : String) : Except FsError RenderedPost :=
  match cs.find? (fun d => d.slug == slug) with
  | none => .error .enoent
  | some d => .ok { frontMatter := getPostNormalize slug d.fm, content := d.body }

/-- One aggregation entry of `listCategories`. -/
structure CategoryCount where
  category : Category
  count : Nat
deriving Repr, DecidableEq

/-- The count map of `listCategories` (`utils.ts:211-217`): every category
initialized to `0`, then one increment per post. -/
def categoryCounts (posts : List PostListItem) : Category → Nat :=
  posts.foldl
    (fun m p => Function.update m p.frontMatter.category (m p.frontMatter.category + 1))
    (fun _ => 0)

/-- `listCategories` (`utils.ts:206-221`): count the posts of every
category, returning one entry per `ALL_CATEGORIES` member in declaration
order, zero counts included. -/
def listCategories (cs : List RawDoc) : List CategoryCount :=
  let counts := categoryCounts (listPosts cs)
  ALL_CATEGORIES.map fun c => { category := c, count := counts c }

/-- `listPostsByCategory` (`utils.ts:225-230`): the sorted listing
filtered to one category. -/
def listPostsByCategory (cs : List RawDoc) (category : Category) : List PostListItem :=
  (listPosts cs).filter fun p => p.frontMatter.category == category

mutual
/-- A finite render-tree node (`React.ReactNode` as `extractText` inspects
it, `CodeBlock.tsx:13-31`): `null`/`undefined`, string and numeric leaves,
sequences (arrays, carried as an inlined mutual list), element nodes
carrying a `children` prop (an absent `children` prop is the `undefNode`
child), and every other shape (booleans, portals, ...). -/
inductive ReactNode where
  | nullNode
  | undefNode
  | text (s : String)
  | num (n : Int)
  | seq (nodes : RNodeList)
  | element (children : ReactNode)
  | other

/-- A list of render-tree nodes (the elements of an array node). -/
inductive RNodeList where
  | nil
  | cons (hd : ReactNode) (tl : RNodeList)
end

/-- The elements of an `RNodeList` as an ordinary Lean list. -/
def RNodeList.toList : RNodeList → List ReactNode
  | .nil => []
  | .cons x xs => x :: xs.toList

mutual
/-- `extractText` (`CodeBlock.tsx:13-31`): the recursive plain-text
projection of a render tree.  Its acceptance as a total Lean function is
the termination argument for finite trees. -/
def extractText : ReactNode → String
  | .nullNode => ""
  | .undefNode => ""
  | .text s => s
  | .num n => toString n
  | .seq nodes => String.join (extractTextList nodes)
  | .element children => extractText children
  | .other => ""

/-- `node.map(extractText)` over the elements of an array node (whose
`join("")` is the sequence case of `extractText`). -/
def extractTextList : RNodeList → List String
  | .nil => []
  | .cons x xs => extractText x :: extractTextList xs
end

/-!
Exception-tracking layer.  Each JavaScript coercion the normalizer performs
is re-stated in the `Except` monad, raising at exactly the points where the
engine could raise: `String(v)` throws only on symbols (which the YAML
frontmatter engine never produces) and `Date.prototype.toISOString` throws
only on invalid dates (which it never produces either), so over the
modelled universe every raising point is dead.  The totality claim is that
these computations always return `Except.ok` of the pure normalization.
-/

/-- `String(v)` in the `Except` monad: total over the modelled universe
(only symbols would raise a `TypeError`, and none exist here). -/
def jsToStringE (v : JSValue) : Except String String := .ok (jsToString v)

/-- `Date.prototype.toISOString` in the `Except` monad: total because every
modelled `Date` carries a valid time value (an invalid date would raise a
`RangeError`). -/
def toISOStringE (millis : Int) : Except String String := .ok (isoOfMillis millis)

/-- `normalizeDateToISO` with explicit exception tracking. -/
def normalizeDateToISOE (value : JSValue) : Except String String :=
  if jsFalsy value then toISOStringE 0
  else match value with
    | .date t => toISOStringE t
    | _ => do
      let asString ← jsToStringE value
      match jsParseDate asString with
      | some t => toISOStringE t
      | none => pure asString

/-- `normalizeCategory` with explicit exception tracking (lowercasing,
trimming and the membership test never raise). -/
def normalizeCategoryE (value : JSValue) : Except String Category :=
  if jsFalsy value then pure .etc
  else do
    let s ← jsToStringE value
    let asString := jsTrim (jsToLower s)
    if (ALL_CATEGORIES.map Category.toStr).contains asString then pure (categoryOfString asString)
    else pure .etc

/-- The `listPosts` inline normalization with explicit exception
tracking. -/
def listPostsNormalizeE (fm : RawFM) : Except String PostFrontMatter := do
  let title ← jsToStringE (jsCoalesce fm.title (.str "Untitled"))
  let createdAt ← normalizeDateToISOE (jsCoalesce fm.createdAt fm.date)
  let updatedAt ← normalizeDateToISOE (jsCoalesce fm.updatedAt (jsCoalesce fm.createdAt fm.date))
  let category ← normalizeCategoryE fm.category
  let description ←
    if jsFalsy fm.description then pure none
    else do
      let s ← jsToStringE fm.description
      pure (some s)
  let tags ←
    match fm.tags with
    | .array xs => do
      let ts ← xs.toList.mapM jsToStringE
      pure (some ts)
    | _ => pure none
  pure { title, createdAt, updatedAt, category, description, tags }

/-- The `getPostBySlug` inline normalization with explicit exception
tracking. -/
def getPostNormalizeE (slug : String) (fm : RawFM) : Except String PostFrontMatter := do
  let title ← jsToStringE (jsCoalesce fm.title (.str slug))
  let createdAt ← normalizeDateToISOE (jsCoalesce fm.createdAt fm.date)
  let updatedAt ← normalizeDateToISOE (jsCoalesce fm.updatedAt (jsCoalesce fm.createdAt fm.date))
  let category ← normalizeCategoryE fm.category
  let description ←
    if jsFalsy fm.description then pure none
    else do
      let s ← jsToStringE fm.description
      pure (some s)
  let tags ←
    match fm.tags with
    | .array xs => do
      let ts ← xs.toList.mapM jsToStringE
      pure (some ts)
    | _ => pure none
  pure { title, createdAt, updatedAt, category, description, tags }

/-- The date normalization exactly as the specification sentence describes
it: an absent (nullish) value falls back to the epoch, a `Date` converts
directly, and any *other* value — the empty string included — is coerced
to a string and parsed.  Stated from the specification's words, for
comparison with `normalizeDateToISO`. -/
def specNormalizeDate (value : JSValue) : String :=
  if jsNullish value then isoOfMillis 0
  else match value with
    | .date t => isoOfMillis t
    | _ =>
      let asString := jsToString value
      match jsParseDate asString with
      | some t => isoOfMillis t
      | none => asString

/-- The date normalization with the fallback guard widened from "absent"
to JavaScript falsiness, as the code actually tests (`!value`). -/
def specNormalizeDateFalsy (value : JSValue) : String :=
  if jsFalsy value then isoOfMillis 0
  else match value with
    | .date t => isoOfMillis t
    | _ =>
      let asString := jsToString value
      match jsParseDate asString with
      | some t => isoOfMillis t
      | none => asString

/-- The category normalization as the specification sentence describes it,
producing the canonical string: coerce, lowercase, trim, membership-test,
default `"etc"`. -/
def specCategoryStr (v : JSValue) : String :=
  let s := jsTrim (jsToLower (jsToString v))
  if (ALL_CATEGORIES.map Category.toStr).contains s then s else "etc"

end Blog

namespace Blog

/- Sanity checks for the date model. -/
example : isoOfMillis 0 = "1970-01-01T00:00:00.000Z" := by rfl
example : jsParseDate "2024-03-01" = some 1709251200000 := by rfl
example : isoOfMillis 1709251200000 = "2024-03-01T00:00:00.000Z" := by rfl
example : jsParseDate "not-a-date" = none := by rfl
example : jsParseDate "" = none := by rfl
example : jsParseDate "1970-01-01T00:00:00.000Z" = some 0 := by rfl
example : jsParseDate "2024-02-30" = none := by rfl

/- Scenario 1 of the specification: date-only frontmatter normalizes to the
ISO midnight timestamp and a missing category classifies as `etc`. -/
example :
    listPostsNormalize { title := .str "Hello World", date := .str "2024-03-01" } =
      { title := "Hello World", createdAt := "2024-03-01T00:00:00.000Z",
        updatedAt := "2024-03-01T00:00:00.000Z", category := .etc,
        description := none, tags := none } := by rfl

/- Scenario 2: casing is normalized away. -/
example : normalizeCategory (.str "Frontend") = .frontend := by rfl

/- Scenario 5: the validator is case-sensitive. -/
example : isValidCategory "Backend" = false := by rfl

end Blog

namespace Blog

/-- C1: the claim's reading of `normalizeDateToISO` fails on the empty
string: the code's guard tests falsiness, not absence, so the present
empty-string value falls back to the epoch instead of being parsed and
passed through unchanged. -/
theorem normalizeDateToISO_claim_counterexample :
    normalizeDateToISO (.str "") = "1970-01-01T00:00:00.000Z" ∧
    specNormalizeDate (.str "") = "" ∧
    ("" : String) ≠ "1970-01-01T00:00:00.000Z" :=
  ⟨rfl, rfl, by decide⟩

/-- C1 (amended): `normalizeDateToISO` falls back to the epoch on every
falsy value (absence included), converts `Date` objects directly, and
otherwise stringifies and parses, keeping the original string on parse
failure; a document with no `date`/`createdAt` field normalizes to the
zero-epoch timestamp. -/
theorem normalizeDateToISO_spec :
    (∀ v, normalizeDateToISO v = specNormalizeDateFalsy v) ∧
    (∀ fm : RawFM, fm.createdAt = .undefined → fm.date = .undefined →
      (listPostsNormalize fm).createdAt = "1970-01-01T00:00:00.000Z") := by
  refine ⟨fun v => rfl, fun fm h1 h2 => ?_⟩
  show normalizeDateToISO (jsCoalesce fm.createdAt fm.date) = _
  rw [h1, h2]
  rfl

/-- Witness for C1's amended theorem at the all-absent frontmatter. -/
theorem normalizeDateToISO_spec_witness :
    (listPostsNormalize {}).createdAt = "1970-01-01T00:00:00.000Z" :=
  normalizeDateToISO_spec.2 {} rfl rfl

/-- C2: an unparseable `createdAt` does not fall back to the zero epoch —
the original string is passed through unchanged. -/
theorem createdAt_epoch_claim_counterexample :
    jsParseDate "not-a-date" = none ∧
    normalizeDateToISO (.str "not-a-date") = "not-a-date" ∧
    ("not-a-date" : String) ≠ "1970-01-01T00:00:00.000Z" :=
  ⟨rfl, rfl, by decide⟩

/-- C2 (amended): a missing (nullish) raw date normalizes to the zero
epoch, while a present non-empty unparseable string is passed through
unchanged. -/
theorem createdAt_fallback_spec :
    (∀ v, jsNullish v = true → normalizeDateToISO v = "1970-01-01T00:00:00.000Z") ∧
    (∀ s : String, s ≠ "" → jsParseDate s = none → normalizeDateToISO (.str s) = s) := by
  constructor
  · intro v hv
    cases v <;> simp [jsNullish] at hv <;> rfl
  · intro s hs hp
    have hf : jsFalsy (.str s) = false := by simp [jsFalsy, hs]
    simp [normalizeDateToISO, hf, jsToString, hp]

/-- Witness for C2's amended theorem: a `null` date and the unparseable
string `"x"`. -/
theorem createdAt_fallback_spec_witness :
    normalizeDateToISO .null = "1970-01-01T00:00:00.000Z" ∧
    normalizeDateToISO (.str "x") = "x" :=
  ⟨createdAt_fallback_spec.1 .null rfl,
   createdAt_fallback_spec.2 "x" (by decide) rfl⟩

/-- C6: the normalized title can be empty — a present empty-string raw
title is not nullish, so the `"Untitled"` fallback does not trigger and
`String("")` is the empty string. -/
theorem title_nonempty_counterexample :
    (listPostsNormalize { title := .str "" }).title = "" := rfl

/-- C6 (amended): a nullish (absent or `null`) raw title falls back to
`"Untitled"` in the listing path and to the slug in the single-document
path; a present raw title is coerced with `String(...)`, which yields the
empty string when the raw title is itself the empty string (or an empty
array). -/
theorem title_fallback_spec :
    (∀ fm : RawFM, jsNullish fm.title = true →
      (listPostsNormalize fm).title = "Untitled") ∧
    (∀ (slug : String) (fm : RawFM), jsNullish fm.title = true →
      (getPostNormalize slug fm).title = slug) ∧
    (∀ (slug : String) (fm : RawFM), jsNullish fm.title = false →
      (listPostsNormalize fm).title = jsToString fm.title ∧
      (getPostNormalize slug fm).title = jsToString fm.title) := by
  refine ⟨fun fm h => ?_, fun slug fm h => ?_, fun slug fm h => ⟨?_, ?_⟩⟩
  · show jsToString (jsCoalesce fm.title (.str "Untitled")) = _
    rw [jsCoalesce, h]
    rfl
  · show jsToString (jsCoalesce fm.title (.str slug)) = _
    rw [jsCoalesce, h]
    rfl
  · show jsToString (jsCoalesce fm.title (.str "Untitled")) = _
    rw [jsCoalesce, h]
    rfl
  · show jsToString (jsCoalesce fm.title (.str slug)) = _
    rw [jsCoalesce, h]
    rfl

/-- Witness for C6's amended theorem: an absent title and a present one. -/
theorem title_fallback_spec_witness :
    (listPostsNormalize {}).title = "Untitled" ∧
    (getPostNormalize "my-slug" {}).title = "my-slug" ∧
    (listPostsNormalize { title := .str "Hi" }).title = jsToString (.str "Hi") :=
  ⟨title_fallback_spec.1 {} rfl,
   title_fallback_spec.2.1 "my-slug" {} rfl,
   (title_fallback_spec.2.2 "s" { title := .str "Hi" } rfl).1⟩

/-- Every category constructor is listed in `ALL_CATEGORIES`. -/
theorem category_mem_all (c : Category) : c ∈ ALL_CATEGORIES := by
  cases c <;> simp [ALL_CATEGORIES]

/-- The cast back from a member string hits the category spelled by it. -/
theorem categoryOfString_toStr {s : String}
    (h : (ALL_CATEGORIES.map Category.toStr).contains s = true) :
    (categoryOfString s).toStr = s := by
  rw [List.elem_iff] at h
  simp only [ALL_CATEGORIES, Category.toStr, List.map_cons, List.map_nil, List.mem_cons,
    List.not_mem_nil, or_false] at h
  rcases h with h | h | h | h <;> subst h <;> rfl

/-- C4: `normalizeCategory` realizes exactly the coerce-lowercase-trim-
membership-test description, and its result is always a member of the
fixed enumeration. -/
theorem normalizeCategory_spec (v : JSValue) :
    (normalizeCategory v).toStr = specCategoryStr v ∧ normalizeCategory v ∈ ALL_CATEGORIES := by
  refine ⟨?_, category_mem_all _⟩
  by_cases hf : jsFalsy v = true
  · have he : normalizeCategory v = .etc := by simp [normalizeCategory, hf]
    rw [he]
    cases v with
    | undefined => rfl
    | null => rfl
    | boolean b =>
      have : b = false := by simpa [jsFalsy] using hf
      subst this
      rfl
    | number n =>
      have : n = 0 := by simpa [jsFalsy] using hf
      subst this
      rfl
    | str s =>
      have : s = "" := by simpa [jsFalsy] using hf
      subst this
      rfl
    | date t => simp [jsFalsy] at hf
    | array xs => simp [jsFalsy] at hf
  · have hf' : jsFalsy v = false := by simpa using hf
    rw [normalizeCategory, specCategoryStr]
    simp only [hf', Bool.false_eq_true, if_false]
    by_cases hc :
        (ALL_CATEGORIES.map Category.toStr).contains (jsTrim (jsToLower (jsToString v))) = true
    · simp only [hc, if_true]
      exact categoryOfString_toStr hc
    · simp only [hc, if_false]
      rfl

end Blog

namespace Blog

/-- `jsToStringE` never raises over the modelled universe. -/
theorem jsToStringE_ok (v : JSValue) : jsToStringE v = .ok (jsToString v) := rfl

/-- Binding an `Except.ok` result proceeds with the bound value. -/
theorem exceptOk_bind {ε α β : Type} (x : α) (f : α → Except ε β) :
    (Except.ok x : Except ε α) >>= f = f x := rfl

/-- Binding a pure `Except` result proceeds with the bound value. -/
theorem exceptPure_bind {ε α β : Type} (x : α) (f : α → Except ε β) :
    (pure x : Except ε α) >>= f = f x := rfl

/-- `normalizeDateToISOE` never raises, and agrees with the pure
normalization. -/
theorem normalizeDateToISOE_ok (v : JSValue) :
    normalizeDateToISOE v = .ok (normalizeDateToISO v) := by
  rw [normalizeDateToISOE.eq_def, normalizeDateToISO.eq_def]
  by_cases hf : jsFalsy v = true
  · simp only [hf, if_true]
    rfl
  · have hf' : jsFalsy v = false := by simpa using hf
    simp only [hf', Bool.false_eq_true, if_false]
    cases v with
    | undefined => simp [jsFalsy] at hf'
    | null => simp [jsFalsy] at hf'
    | date t => rfl
    | boolean b =>
      cases hp : jsParseDate (jsToString (JSValue.boolean b)) <;>
        simp only [jsToStringE, exceptOk_bind, hp] <;> rfl
    | number n =>
      cases hp : jsParseDate (jsToString (JSValue.number n)) <;>
        simp only [jsToStringE, exceptOk_bind, hp] <;> rfl
    | str s =>
      cases hp : jsParseDate (jsToString (JSValue.str s)) <;>
        simp only [jsToStringE, exceptOk_bind, hp] <;> rfl
    | array xs =>
      cases hp : jsParseDate (jsToString (JSValue.array xs)) <;>
        simp only [jsToStringE, exceptOk_bind, hp] <;> rfl

/-- `normalizeCategoryE` never raises, and agrees with the pure
normalization. -/
theorem normalizeCategoryE_ok (v : JSValue) :
    normalizeCategoryE v = .ok (normalizeCategory v) := by
  rw [normalizeCategoryE.eq_def, normalizeCategory.eq_def]
  by_cases hf : jsFalsy v = true
  · simp only [hf, if_true]
    rfl
  · have hf' : jsFalsy v = false := by simpa using hf
    simp only [hf', Bool.false_eq_true, if_false, jsToStringE, exceptOk_bind]
    by_cases hc :
        (ALL_CATEGORIES.map Category.toStr).contains (jsTrim (jsToLower (jsToString v))) = true <;>
      simp only [hc, if_true, if_false] <;> rfl

/-- Elementwise `String(...)` coercion of an array never raises. -/
theorem mapM_jsToStringE_ok (xs : List JSValue) :
    xs.mapM jsToStringE = .ok (xs.map jsToString) := by
  induction xs with
  | nil => rfl
  | cons x xs ih => rw [List.mapM_cons, ih]; rfl

/-- C3: the metadata normalizer is total — with every JavaScript raising
point tracked in the `Except` monad, both normalization paths return
`Except.ok` of the pure result on every raw metadata mapping. -/
theorem normalize_total (fm : RawFM) (slug : String) :
    listPostsNormalizeE fm = .ok (listPostsNormalize fm) ∧
    getPostNormalizeE slug fm = .ok (getPostNormalize slug fm) := by
  constructor
  · rw [listPostsNormalizeE, listPostsNormalize]
    by_cases hd : jsFalsy fm.description = true <;>
      cases ht : fm.tags <;>
        simp only [jsToStringE, normalizeDateToISOE_ok, normalizeCategoryE_ok,
          mapM_jsToStringE_ok, hd, ht, exceptOk_bind, exceptPure_bind, if_true, if_false,
          Bool.false_eq_true] <;>
        rfl
  · rw [getPostNormalizeE, getPostNormalize]
    by_cases hd : jsFalsy fm.description = true <;>
      cases ht : fm.tags <;>
        simp only [jsToStringE, normalizeDateToISOE_ok, normalizeCategoryE_ok,
          mapM_jsToStringE_ok, hd, ht, exceptOk_bind, exceptPure_bind, if_true, if_false,
          Bool.false_eq_true] <;>
        rfl

/-- C8: `getPostBySlug` fails with the not-found error exactly when no
document matches the slug, and otherwise returns the fully-populated
rendered post of the matching document. -/
theorem getPostBySlug_spec (cs : List RawDoc) (slug : String) :
    ((∀ d ∈ cs, d.slug ≠ slug) → getPostBySlug cs slug = .error .enoent) ∧
    (∀ d, cs.find? (fun d => d.slug == slug) = some d →
      getPostBySlug cs slug = .ok { frontMatter := getPostNormalize slug d.fm, content := d.body }) := by
  constructor
  · intro h
    have hn : cs.find? (fun d => d.slug == slug) = none := by
      rw [List.find?_eq_none]
      intro d hd
      simp [h d hd]
    rw [getPostBySlug, hn]
  · intro d hd
    rw [getPostBySlug, hd]

/-- Witness for C8 at the empty content set (scenario 6 of the
specification). -/
theorem getPostBySlug_spec_witness :
    getPostBySlug [] "does-not-exist" = .error .enoent :=
  (getPostBySlug_spec [] "does-not-exist").1 (by intro d hd; cases hd)

/-- The elementwise projection of an array node is the `List.map` of
`extractText` over its elements. -/
theorem extractTextList_eq :
    ∀ nodes : RNodeList, extractTextList nodes = nodes.toList.map extractText
  | .nil => rfl
  | .cons x xs => by
    rw [extractTextList, RNodeList.toList, List.map_cons, extractTextList_eq xs]

/-- C9: `extractText` is a total (hence terminating on every finite tree)
pure function satisfying the claimed case equations. -/
theorem extractText_spec :
    extractText .nullNode = "" ∧
    extractText .undefNode = "" ∧
    (∀ s, extractText (.text s) = s) ∧
    (∀ n : Int, extractText (.num n) = toString n) ∧
    (∀ nodes, extractText (.seq nodes) = String.join (nodes.toList.map extractText)) ∧
    (∀ children, extractText (.element children) = extractText children) ∧
    extractText .other = "" := by
  refine ⟨rfl, rfl, fun s => rfl, fun n => rfl, fun nodes => ?_, fun c => rfl, rfl⟩
  show String.join (extractTextList nodes) = _
  rw [extractTextList_eq]

/-- C10: the two inline normalizations agree on every field other than the
title, and on the title whenever the raw title is present (non-nullish) —
they differ only in the fallback (`"Untitled"` versus the slug). -/
theorem normalize_paths_agree (slug : String) (fm : RawFM) :
    ((listPostsNormalize fm).createdAt = (getPostNormalize slug fm).createdAt ∧
     (listPostsNormalize fm).updatedAt = (getPostNormalize slug fm).updatedAt ∧
     (listPostsNormalize fm).category = (getPostNormalize slug fm).category ∧
     (listPostsNormalize fm).description = (getPostNormalize slug fm).description ∧
     (listPostsNormalize fm).tags = (getPostNormalize slug fm).tags) ∧
    (jsNullish fm.title = false →
      (listPostsNormalize fm).title = (getPostNormalize slug fm).title) := by
  refine ⟨⟨rfl, rfl, rfl, rfl, rfl⟩, fun h => ?_⟩
  show jsToString (jsCoalesce fm.title (.str "Untitled")) =
    jsToString (jsCoalesce fm.title (.str slug))
  rw [jsCoalesce, jsCoalesce, h]
  simp

/-- Witness for C10 at a present raw title. -/
theorem normalize_paths_agree_witness :
    (listPostsNormalize { title := .str "T" }).title =
      (getPostNormalize "some-slug" { title := .str "T" }).title :=
  (normalize_paths_agree "some-slug" { title := .str "T" }).2 rfl

end Blog

namespace Blog

/-- Inserting never produces the empty list, and the head of the result is
either the inserted element or the original head. -/
theorem insertSorted_head (le : α → α → Bool) (x : α) :
    ∀ l : List α, (insertSorted le x l).head? = some x ∨ (insertSorted le x l).head? = l.head?
  | [] => .inl rfl
  | y :: ys => by
    rw [insertSorted]
    by_cases h : le x y = true
    · simp only [h, if_true]
      exact .inl rfl
    · simp only [h, Bool.false_eq_true, if_false]
      exact .inr rfl

/-- Insertion under a comparator satisfying totality (an element that may
not precede another is preceded by it) preserves adjacent-pair ordering.
Transitivity is not required: this is exactly the guarantee available for
the date comparator, whose `NaN` handling makes it non-transitive. -/
theorem insertSorted_chain (le : α → α → Bool)
    (total : ∀ a b, le a b = false → le b a = true) (x : α) :
    ∀ l : List α, List.Chain' (fun a b => le a b = true) l →
      List.Chain' (fun a b => le a b = true) (insertSorted le x l)
  | [], _ => List.chain'_singleton x
  | y :: ys, hc => by
    rw [insertSorted]
    by_cases h : le x y = true
    · simp only [h, if_true]
      exact hc.cons h
    · simp only [h, Bool.false_eq_true, if_false]
      rw [List.chain'_cons']
      refine ⟨?_, insertSorted_chain le total x ys hc.tail⟩
      intro b hb
      rcases insertSorted_head le x ys with hh | hh

      · rw [hh] at hb
        cases hb
        exact total x y (by simpa using h)
      · rw [hh] at hb
        rw [List.chain'_cons'] at hc
        exact hc.1 b hb

/-- The modelled sort always produces an adjacent-pair ordered list, for
any total comparator. -/
theorem sortBy_chain (le : α → α → Bool)
    (total : ∀ a b, le a b = false → le b a = true) :
    ∀ l : List α, List.Chain' (fun a b => le a b = true) (sortBy le l)
  | [] => List.chain'_nil
  | x :: xs => insertSorted_chain le total x _ (sortBy_chain le total xs)

/-- The comparator order of `listPosts` is total: whenever `a` may not
precede `b`, `b` may precede `a` (`NaN` time values compare `false` on
both sides of `<`). -/
theorem sortLe_total : ∀ a b : PostListItem, sortLe a b = false → sortLe b a = true := by
  intro a b
  rw [sortLe, sortLe]
  cases postTime a <;> cases postTime b <;> (simp [jsLtOpt]; try omega)

/-- C5: `listPosts` output is sorted by `createdAt` descending: every
adjacent pair satisfies the comparator (`a`'s time value is not below
`b`'s), and whenever both `createdAt` fields parse as timestamps, `a`'s is
greater than or equal to `b`'s. -/
theorem listPosts_sorted (cs : List RawDoc) :
    List.Chain'
      (fun a b => sortLe a b = true ∧
        ∀ ta tb, postTime a = some ta → postTime b = some tb → tb ≤ ta)
      (listPosts cs) := by
  rw [listPosts]
  refine (sortBy_chain sortLe sortLe_total _).imp ?_
  intro a b hab
  refine ⟨hab, fun ta tb hta htb => ?_⟩
  rw [sortLe, hta, htb] at hab
  simp [jsLtOpt] at hab
  omega

/-- The running count map of `listCategories`, started from any map,
adds the filtered length to every category's entry. -/
theorem foldl_update_count (posts : List PostListItem) :
    ∀ (m : Category → Nat) (c : Category),
      posts.foldl
        (fun m p => Function.update m p.frontMatter.category (m p.frontMatter.category + 1)) m c
      = m c + (posts.filter fun p => p.frontMatter.category == c).length := by
  induction posts with
  | nil =>
    intro m c
    simp
  | cons p ps ih =>
    intro m c
    rw [List.foldl_cons, ih, List.filter_cons]
    by_cases h : p.frontMatter.category = c
    · subst h
      simp [Function.update_same]
      omega
    · simp [Function.update_noteq (Ne.symm h), h]

/-- Each category's count equals the filtered listing length. -/
theorem categoryCounts_eq (posts : List PostListItem) (c : Category) :
    categoryCounts posts c = (posts.filter fun p => p.frontMatter.category == c).length := by
  rw [categoryCounts, foldl_update_count]
  simp

/-- Every post lands in exactly one category, so the four filtered
lengths sum to the total length. -/
theorem filter_categories_length (posts : List PostListItem) :
    (posts.filter fun p => p.frontMatter.category == Category.frontend).length +
    (posts.filter fun p => p.frontMatter.category == Category.backend).length +
    (posts.filter fun p => p.frontMatter.category == Category.infra).length +
    (posts.filter fun p => p.frontMatter.category == Category.etc).length = posts.length := by
  induction posts with
  | nil => rfl
  | cons p ps ih =>
    simp only [List.filter_cons]
    cases h : p.frontMatter.category <;> simp [h] <;> omega

/-- Insertion grows the length by one. -/
theorem insertSorted_length (le : α → α → Bool) (x : α) :
    ∀ l : List α, (insertSorted le x l).length = l.length + 1
  | [] => rfl
  | y :: ys => by
    rw [insertSorted]
    by_cases h : le x y = true <;> simp [h, insertSorted_length le x ys]

/-- The modelled sort is a permutation in length. -/
theorem sortBy_length (le : α → α → Bool) : ∀ l : List α, (sortBy le l).length = l.length
  | [] => rfl
  | x :: xs => by
    rw [sortBy, insertSorted_length, sortBy_length le xs, List.length_cons]

/-- The listing has one item per scanned document. -/
theorem listPosts_length (cs : List RawDoc) : (listPosts cs).length = cs.length := by
  rw [listPosts, sortBy_length, List.length_map]

/-- C7: `listCategories` returns exactly one entry per enumeration member
in declaration order (zero counts included), the counts sum to the total
number of documents, and each entry's count is the length of the
corresponding filtered listing. -/
theorem listCategories_spec (cs : List RawDoc) :
    (listCategories cs).map CategoryCount.category = ALL_CATEGORIES ∧
    ((listCategories cs).map CategoryCount.count).sum = cs.length ∧
    (∀ e ∈ listCategories cs, e.count = (listPostsByCategory cs e.category).length) := by
  refine ⟨?_, ?_, ?_⟩
  · rw [listCategories]
    simp [ALL_CATEGORIES]
  · rw [listCategories]
    simp only [ALL_CATEGORIES, List.map_cons, List.map_nil, List.sum_cons, List.sum_nil]
    rw [categoryCounts_eq, categoryCounts_eq, categoryCounts_eq, categoryCounts_eq]
    have h1 := filter_categories_length (listPosts cs)
    have h2 := listPosts_length cs
    omega
  · intro e he
    rw [listCategories] at he
    simp only [ALL_CATEGORIES, List.map_cons, List.map_nil, List.mem_cons,
      List.not_mem_nil, or_false] at he
    rcases he with he | he | he | he <;>
      (subst he
       rw [listPostsByCategory]
       exact categoryCounts_eq _ _)

/-- Witness for C7's per-entry count at the empty content set. -/
theorem listCategories_spec_witness :
    ({ category := Category.frontend, count := 0 } : CategoryCount).count =
      (listPostsByCategory [] Category.frontend).length :=
  (listCategories_spec []).2.2 { category := .frontend, count := 0 } (by decide)

end Blog
